import Mathlib

/-!
Verification of the fractal-tree resource allocator of the
Cognitive Atlas System repository.

The development shallowly embeds the two Python implementations of the
allocator:
* `QuantumFractalOptimizer` from `core/hardware_optimizer.py`
  (memory / compute / security fractal trees, session gating, secure
  paths, quantum memory allocation, emergency cleanup, metrics);
* the lighter test variant of `QuantumFractalOptimizer` from
  `test_quantum_optimizer_stress.py`
  (`fractal_memory_allocation`, `fractal_cpu_distribution`).

Python `float` arithmetic is embedded as exact rational arithmetic (`ℚ`);
all concrete inputs used below keep margins far wider than double rounding
error, so every comparison decided here agrees with the Python floats.
Python lists are embedded as `List`, in-place field updates as functional
updates, and raised exceptions as `Except` errors.  Cryptographic values
(sha256 suffixes of the fractal paths, session tokens, Fernet blobs) are
nondeterministic in the source; path suffixes are threaded as an explicit
parameter and the other cryptographic fields, which no operation reads,
are elided.
-/

/- Batteries marks the `Rat` field operations `@[irreducible]`; the
concrete evaluations below need them reducible again so that `decide`
can evaluate the embedded rational (Python float) arithmetic. -/
attribute [local semireducible] Rat.add Rat.sub Rat.mul Rat.inv

namespace CAS

/-! ## Generic list helpers (Python indexing / in-place mutation) -/

/-- Read `xs[i]`; `d` is returned out of bounds (the embedded operations
only index in bounds, mirroring Python which would raise there). -/
def getAt (d : α) : List α → Nat → α
  | [], _ => d
  | x :: _, 0 => x
  | _ :: xs, n + 1 => getAt d xs n

/-- In-place update `xs[i] = f xs[i]` (no-op out of bounds). -/
def modifyAt (f : α → α) : List α → Nat → List α
  | [], _ => []
  | x :: xs, 0 => f x :: xs
  | x :: xs, n + 1 => x :: modifyAt f xs n

/-- Update `tree[l][n] = f tree[l][n]`. -/
def modify2d (f : α → α) (tree : List (List α)) (l n : Nat) : List (List α) :=
  modifyAt (fun row => modifyAt f row n) tree l

/-- Read `tree[l][n]` with default `d`. -/
def getAt2d (d : α) (tree : List (List α)) (l n : Nat) : α :=
  getAt d (getAt [] tree l) n

theorem getAt_modifyAt_self (f : α → α) (d : α) :
    ∀ (xs : List α) (i : Nat), i < xs.length →
      getAt d (modifyAt f xs i) i = f (getAt d xs i) := by
  intro xs
  induction xs with
  | nil => intro i h; simp at h
  | cons x xs ih =>
    intro i h
    cases i with
    | zero => rfl
    | succ j => exact ih j (by simpa using h)

theorem getAt_modifyAt_ne (f : α → α) (d : α) :
    ∀ (xs : List α) (i j : Nat), i ≠ j →
      getAt d (modifyAt f xs i) j = getAt d xs j := by
  intro xs
  induction xs with
  | nil => intro i j _; rfl
  | cons x xs ih =>
    intro i j hij
    cases i with
    | zero =>
      cases j with
      | zero => exact absurd rfl hij
      | succ j => rfl
    | succ i =>
      cases j with
      | zero => rfl
      | succ j => exact ih i j (by omega)

theorem length_modifyAt (f : α → α) :
    ∀ (xs : List α) (i : Nat), (modifyAt f xs i).length = xs.length := by
  intro xs
  induction xs with
  | nil => intro i; rfl
  | cons x xs ih =>
    intro i
    cases i with
    | zero => rfl
    | succ j => simpa [modifyAt] using ih j

/-- Level-major iteration order of the nested
`for level in range(depth): for node in range(branches)` loops. -/
def coords (depth branches : Nat) : List (Nat × Nat) :=
  (List.range depth).flatMap fun l => (List.range branches).map fun n => (l, n)

theorem mem_coords {depth branches : Nat} {l n : Nat} :
    (l, n) ∈ coords depth branches ↔ l < depth ∧ n < branches := by
  simp [coords, List.mem_flatMap, List.mem_range]

/-! ## Python string primitives used by the path round-trip

`pySplit sep s` is Python `s.split(sep)` (always returns at least one
piece).  `pyInt s` is Python `int(s)` restricted to the unsigned decimal
strings that occur in fractal paths; it is `none` where `int` raises
`ValueError`. -/

def pySplit (sep : Char) : List Char → List (List Char)
  | [] => [[]]
  | c :: cs =>
    let r := pySplit sep cs
    if c = sep then [] :: r
    else (c :: r.headD []) :: r.tail

def pyInt (s : List Char) : Option Nat :=
  if s ≠ [] ∧ s.all (fun c => c.isDigit) then
    some (s.foldl (fun acc c => acc * 10 + (c.toNat - 48)) 0)
  else none

theorem pySplit_ne_nil (sep : Char) : ∀ cs : List Char, pySplit sep cs ≠ [] := by
  intro cs
  cases cs with
  | nil => simp [pySplit]
  | cons c cs =>
    simp only [pySplit]
    split <;> simp

theorem pySplit_cons_ne (sep c : Char) (cs : List Char) (h : c ≠ sep) :
    pySplit sep (c :: cs) =
      (c :: (pySplit sep cs).headD []) :: (pySplit sep cs).tail := by
  simp [pySplit, h]

/-- Splitting `pre ++ sep :: suf` when `pre` is separator-free isolates
`pre` as the first piece. -/
theorem pySplit_append (sep : Char) :
    ∀ (pre suf : List Char), sep ∉ pre →
      pySplit sep (pre ++ sep :: suf) = pre :: pySplit sep suf := by
  intro pre
  induction pre with
  | nil => intro suf _; simp [pySplit]
  | cons c cs ih =>
    intro suf h
    have hc : c ≠ sep := fun hc => h (hc ▸ List.mem_cons_self c cs)
    have hcs : sep ∉ cs := fun hm => h (List.mem_cons_of_mem c hm)
    simp only [List.cons_append, pySplit_cons_ne sep c _ hc, ih suf hcs,
      List.headD_cons, List.tail_cons]

/-- Splitting a separator-free string returns it whole. -/
theorem pySplit_not_mem (sep : Char) :
    ∀ cs : List Char, sep ∉ cs → pySplit sep cs = [cs] := by
  intro cs
  induction cs with
  | nil => intro _; rfl
  | cons c cs ih =>
    intro h
    have hc : c ≠ sep := fun hc => h (hc ▸ List.mem_cons_self c cs)
    have hcs : sep ∉ cs := fun hm => h (List.mem_cons_of_mem c hm)
    simp [pySplit_cons_ne sep c _ hc, ih hcs]

/-- Decimal digits of a natural number, as Python `str` / f-string
interpolation produces them. -/
def natDigits (k : Nat) : List Char := (Nat.repr k).data

/-! ## Secure fractal paths (`_generate_secure_path` / `_parse_secure_path`)

`_generate_secure_path(level, node, prefix)` returns
`f"{prefix}{level}N{node}_{secure_hash}"`; the sha256-derived 8-character
hex suffix is nondeterministic, so it is passed as the `suffix` argument.
-/

def generate_secure_path (level node : Nat) (pref : Char) (suffix : List Char) :
    List Char :=
  pref :: (natDigits level ++ [.ofNat 78] ++ natDigits node) ++ [.ofNat 95] ++ suffix

theorem generate_secure_path_eq (level node : Nat) (pref : Char) (suffix : List Char) :
    generate_secure_path level node pref suffix =
      pref :: ((natDigits level ++ [.ofNat 78] ++ natDigits node) ++ .ofNat 95 :: suffix) := by
  simp [generate_secure_path]

/--
```
parts = path.split('_')[0]            # Remove hash
level_str = parts[1:].split('N')[0]
node_str = parts.split('N')[1]
return int(level_str), int(node_str)
# except: return 0, 0
```
Every exception Python can raise here (`IndexError` from `[1]`,
`ValueError` from `int`) is caught by the bare `except`, giving `(0, 0)`.
-/
def parse_secure_path (path : List Char) : Nat × Nat :=
  let parts := (pySplit (.ofNat 95) path).headD []
  let level_str := (pySplit (.ofNat 78) (parts.drop 1)).headD []
  match (pySplit (.ofNat 78) parts).tail with
  | [] => (0, 0)
  | node_str :: _ =>
    match pyInt level_str, pyInt node_str with
    | some l, some n => (l, n)
    | _, _ => (0, 0)

/-- Inner computation of `parse_secure_path` once the leading prefix
character has been stripped from the hash-free part of the path. -/
def parse_body (body : List Char) : Nat × Nat :=
  let level_str := (pySplit (.ofNat 78) body).headD []
  match (pySplit (.ofNat 78) body).tail with
  | [] => (0, 0)
  | node_str :: _ =>
    match pyInt level_str, pyInt node_str with
    | some l, some n => (l, n)
    | _, _ => (0, 0)

theorem parse_secure_path_cons (c : Char) (rest : List Char)
    (h1 : c ≠ .ofNat 95) (h2 : c ≠ .ofNat 78) :
    parse_secure_path (c :: rest) = parse_body ((pySplit (.ofNat 95) rest).headD []) := by
  have hsplit := pySplit_cons_ne (.ofNat 95) c rest h1
  have hN := pySplit_cons_ne (.ofNat 78)
    c ((pySplit (.ofNat 95) rest).headD []) h2
  simp only [parse_secure_path, parse_body, hsplit, List.headD_cons,
    List.drop_succ_cons, List.drop_zero, hN, List.tail_cons]

/-- For levels and nodes in the ranges the constructor admits
(`depth ≤ 8`, `branches ≤ 16`), parsing the body recovers the
coordinates.  Finite check over all 8 × 16 coordinate pairs. -/
theorem parse_body_digits :
    ∀ (l : Fin 8) (n : Fin 16),
      parse_body (natDigits l.val ++ [.ofNat 78] ++ natDigits n.val) = (l.val, n.val) := by
  decide

theorem underscore_not_mem_digits :
    ∀ (l : Fin 8) (n : Fin 16),
      (Char.ofNat 95) ∉ natDigits l.val ++ [.ofNat 78] ++ natDigits n.val := by
  decide

/-- Round-trip: for any prefix character other than `'N'` and `'_'`, any
level `< 8`, node `< 16` and any hash suffix, `_parse_secure_path`
inverts `_generate_secure_path`. -/
theorem parse_generate_roundtrip (c : Char) (h1 : c ≠ .ofNat 78) (h2 : c ≠ .ofNat 95)
    (level node : Nat) (hl : level < 8) (hn : node < 16) (suffix : List Char) :
    parse_secure_path (generate_secure_path level node c suffix) = (level, node) := by
  rw [generate_secure_path_eq]
  rw [parse_secure_path_cons c _ h2 h1]
  rw [pySplit_append (.ofNat 95) _ suffix (underscore_not_mem_digits ⟨level, hl⟩ ⟨node, hn⟩)]
  simpa using parse_body_digits ⟨level, hl⟩ ⟨node, hn⟩

/-! ## `SecurityConfig` constants (`hardware_optimizer.py`) -/

def MAX_MEMORY_ALLOCATION : Nat := 16 * 1024 * 1024 * 1024

def MIN_FRACTAL_DEPTH : Nat := 3

def MAX_FRACTAL_BRANCHES : Nat := 16

def SESSION_TIMEOUT : Nat := 300

/-! ## Data model of `QuantumFractalOptimizer` (`hardware_optimizer.py`)

Timestamps are `time.perf_counter_ns()` values, embedded as nanosecond
naturals.  The inert cryptographic fields (`security_hash`,
`encrypted_data`, `encrypted_logs`) and fields no operation ever reads
(`intrusion_attempts`, `active_threads`) are elided. -/

/-- A memory-fractal node; an active process record keeps its
`(size, timestamp)` pair. -/
structure MemNode where
  memory_allocation : Nat
  active_processes : List (Nat × Nat)
  utilization : ℚ
  fractal_path : List Char
  quantum_priority : Nat
  last_accessed : Nat
  deriving DecidableEq, Repr

/-- A compute-fractal node. -/
structure CompNode where
  assigned_cores : Nat
  current_load : ℚ
  fractal_path : List Char
  quantum_efficiency : ℚ
  load_history : List ℚ
  deriving DecidableEq, Repr

/-- A security-fractal node. -/
structure SecNode where
  last_scan : Nat
  security_score : ℚ
  fractal_path : List Char
  threat_level : Int
  deriving DecidableEq, Repr

/-- The mutable optimizer state.  `hsuffix l n` is the sha256-derived
hex suffix `_generate_secure_path` appends for coordinate `(l, n)`. -/
structure QState where
  depth : Nat
  branches : Nat
  total_ram : Nat
  session_start : Nat
  memory_fractal : List (List MemNode)
  compute_fractal : List (List CompNode)
  security_fractal : List (List SecNode)
  security_events : List Nat
  deriving DecidableEq, Repr

/-- Default used by `getAt2d`; never read on in-bounds accesses. -/
def memNodeDefault : MemNode :=
  { memory_allocation := 0, active_processes := [], utilization := 0,
    fractal_path := [], quantum_priority := 0, last_accessed := 0 }

/-- Exceptions escaping the embedded operations.  `sessionExpired` and
`sizeExceeded` are the two `QuantumSecurityError` raises of the
allocation path, `badParameters` the `QuantumSecurityError` of
`_validate_parameters`, `insufficientResources` the `ResourceError`, and
`attributeError` the `AttributeError` raised by the call to the
undefined method `_quantum_memory_balance`. -/
inductive PyErr where
  | sessionExpired
  | sizeExceeded
  | badParameters
  | insufficientResources
  | attributeError
  deriving DecidableEq, Repr

instance {e a : Type} [DecidableEq e] [DecidableEq a] : DecidableEq (Except e a)
  | .error x, .error y =>
    if h : x = y then isTrue (by rw [h]) else isFalse (by simp [h])
  | .error _, .ok _ => isFalse (by simp)
  | .ok _, .error _ => isFalse (by simp)
  | .ok x, .ok y =>
    if h : x = y then isTrue (by rw [h]) else isFalse (by simp [h])

/-! ## Construction -/

/-- `_validate_parameters(depth, branches, security_level)`. -/
def validate_parameters (depth branches security_level : Nat) : Except PyErr Unit :=
  if ¬(MIN_FRACTAL_DEPTH ≤ depth ∧ depth ≤ 8) then .error .badParameters
  else if ¬(2 ≤ branches ∧ branches ≤ MAX_FRACTAL_BRANCHES) then .error .badParameters
  else if ¬(1 ≤ security_level ∧ security_level ≤ 5) then .error .badParameters
  else .ok ()

/-- `_create_quantum_memory_tree`: per-node allocation
`min(base * 2**level, MAX_MEMORY_ALLOCATION // (branches * level + 1))`
with `base = total_ram // branches**(level+1)`. -/
def create_quantum_memory_tree (depth branches total_ram : Nat)
    (hsuffix : Nat → Nat → List Char) (t0 : Nat) : List (List MemNode) :=
  (List.range depth).map fun level =>
    (List.range branches).map fun node =>
      let base_allocation := total_ram / branches ^ (level + 1)
      let quantum_allocation := base_allocation * 2 ^ level
      let secured_allocation :=
        min quantum_allocation (MAX_MEMORY_ALLOCATION / (branches * level + 1))
      { memory_allocation := secured_allocation
        active_processes := []
        utilization := 0
        fractal_path := generate_secure_path level node (.ofNat 77) (hsuffix level node)
        quantum_priority := level * 10 + node
        last_accessed := t0 }

/-- `_create_quantum_compute_tree`:
`assigned_cores = max(1, int(cores_per_level * quantum_boost // (node + 1)))`
with `quantum_boost = 1.0 + level * 0.1` (float floor division). -/
def create_quantum_compute_tree (depth branches cpu_cores : Nat)
    (hsuffix : Nat → Nat → List Char) : List (List CompNode) :=
  let cores_per_level := max 1 (cpu_cores / depth)
  (List.range depth).map fun (level : Nat) =>
    (List.range branches).map fun (node : Nat) =>
      let quantum_boost : ℚ := 1 + (level : ℚ) * (1 / 10)
      let assigned_cores :=
        max 1 (⌊((cores_per_level : ℚ) * quantum_boost) / ((node : ℚ) + 1)⌋.toNat)
      { assigned_cores := assigned_cores
        current_load := 0
        fractal_path := generate_secure_path level node (.ofNat 67) (hsuffix level node)
        quantum_efficiency := 1 + level * (5 / 100)
        load_history := [] }

/-- `_create_security_fractal`. -/
def create_security_fractal (depth branches : Nat)
    (hsuffix : Nat → Nat → List Char) (t0 : Nat) : List (List SecNode) :=
  (List.range depth).map fun level =>
    (List.range branches).map fun node =>
      { last_scan := t0
        security_score := 100
        fractal_path := generate_secure_path level node (.ofNat 83) (hsuffix level node)
        threat_level := 0 }

/-- `QuantumFractalOptimizer.__init__`: validate the parameters, then
build the three trees.  `total_ram` stands for the
environment-dependent `_get_secure_ram_allocation()` result, `cpu_cores`
for `min(32, os.cpu_count() or 8)`, and `t0` for the construction-time
`time.perf_counter_ns()` (session start and initial scan stamps). -/
def optimizer_init (depth branches security_level : Nat) (total_ram cpu_cores : Nat)
    (hsuffixM hsuffixC hsuffixS : Nat → Nat → List Char) (t0 : Nat) :
    Except PyErr QState :=
  match validate_parameters depth branches security_level with
  | .error e => .error e
  | .ok _ => .ok
      { depth := depth
        branches := branches
        total_ram := total_ram
        session_start := t0
        memory_fractal := create_quantum_memory_tree depth branches total_ram hsuffixM t0
        compute_fractal := create_quantum_compute_tree depth branches cpu_cores hsuffixC
        security_fractal := create_security_fractal depth branches hsuffixS t0
        security_events := [] }

/-! ## Security gate -/

/-- `_validate_session`: raises once
`(now - session_start) / 1e9 > SESSION_TIMEOUT` seconds have elapsed. -/
def validate_session (st : QState) (now : Nat) : Except PyErr Unit :=
  let session_duration : ℚ := ((now : ℚ) - (st.session_start : ℚ)) / (10 ^ 9 : ℚ)
  if (SESSION_TIMEOUT : ℚ) < session_duration then .error .sessionExpired
  else .ok ()

/-- `_validate_node_security`: `False` when the index raises (caught by
the bare `except`), when `threat_level > 50`, or when the last scan is
more than 60 seconds old; otherwise `security_score > 70`. -/
def validate_node_security (st : QState) (level node : Nat) (now : Nat) : Bool :=
  match (st.security_fractal.get? level).bind (fun row => row.get? node) with
  | none => false
  | some security_node =>
    if 50 < security_node.threat_level ∨
        (60 : ℚ) < ((now : ℚ) - (security_node.last_scan : ℚ)) / (10 ^ 9 : ℚ) then
      false
    else
      decide ((70 : ℚ) < security_node.security_score)

/-! ## Placement search (`_find_quantum_memory_path`) -/

/-- One entry of the `search_paths` candidate list:
`(fractal_path, quantum_capacity, level)`. -/
structure Cand where
  path : List Char
  qc : ℚ
  level : Nat
  deriving DecidableEq, Repr

/-- Descending order on the Python sort key `(quantum_capacity, level)`:
`x` precedes (or ties with) `y`. -/
def candGE (x y : Cand) : Prop :=
  y.qc < x.qc ∨ (x.qc = y.qc ∧ y.level ≤ x.level)

instance : DecidableRel candGE := fun x y =>
  inferInstanceAs (Decidable (y.qc < x.qc ∨ (x.qc = y.qc ∧ y.level ≤ x.level)))

instance : IsTotal Cand candGE := by
  constructor
  intro x y
  rcases lt_trichotomy x.qc y.qc with h | h | h
  · exact Or.inr (Or.inl h)
  · rcases Nat.le_total y.level x.level with hl | hl
    · exact Or.inl (Or.inr ⟨h, hl⟩)
    · exact Or.inr (Or.inr ⟨h.symm, hl⟩)
  · exact Or.inl (Or.inl h)

instance : IsTrans Cand candGE := by
  constructor
  intro x y z hxy hyz
  rcases hxy with h1 | ⟨h1, h1l⟩ <;> rcases hyz with h2 | ⟨h2, h2l⟩
  · exact Or.inl (h2.trans h1)
  · exact Or.inl (h2 ▸ h1)
  · exact Or.inl (h1 ▸ h2)
  · exact Or.inr ⟨h1.trans h2, h2l.trans h1l⟩

theorem candGE_refl (x : Cand) : candGE x x := Or.inr ⟨rfl, le_refl _⟩

/-- The candidate list of `_find_quantum_memory_path`: nodes passing
security validation with `quantum_capacity >= size` and
`quantum_priority >= priority`, in level-major visit order.
`quantum_capacity = available * (1.0 + level * 0.1)` with
`available = memory_allocation * (1 - utilization)`. -/
def search_paths (st : QState) (size priority : Nat) (now : Nat) : List Cand :=
  (coords st.depth st.branches).filterMap fun ln =>
    let node_info := getAt2d memNodeDefault st.memory_fractal ln.1 ln.2
    if validate_node_security st ln.1 ln.2 now then
      let available : ℚ := (node_info.memory_allocation : ℚ) * (1 - node_info.utilization)
      let quantum_capacity : ℚ := available * (1 + (ln.1 : ℚ) * (1 / 10))
      if (size : ℚ) ≤ quantum_capacity ∧ priority ≤ node_info.quantum_priority then
        some { path := node_info.fractal_path, qc := quantum_capacity, level := ln.1 }
      else none
    else none

/-- `_find_quantum_memory_path`: sort the candidates by
`(quantum_capacity, level)` descending (Python's sort is stable, which
`List.insertionSort` with the reflexive descending order reproduces
exactly) and return the top path, or `None`. -/
def find_quantum_memory_path (st : QState) (size priority : Nat) (now : Nat) :
    Option (List Char) :=
  match List.insertionSort candGE (search_paths st size priority now) with
  | [] => none
  | c :: _ => some c.path

/-! ## `quantum_memory_allocation` -/

/-- Commit an allocation on node `(level, node)`: append the process
record, add `min(process_size, memory_allocation) / memory_allocation`
to the utilization, refresh `last_accessed`. -/
def commit_allocation (st : QState) (level node : Nat) (process_size : Nat)
    (now : Nat) : QState :=
  { st with memory_fractal := modify2d (fun mn =>
      let allocated_memory := min process_size mn.memory_allocation
      { mn with
        active_processes := mn.active_processes ++ [(process_size, now)]
        utilization := mn.utilization +
          (allocated_memory : ℚ) / (mn.memory_allocation : ℚ)
        last_accessed := now }) st.memory_fractal level node }

/-- `quantum_memory_allocation(process_size, priority)`, at time `now`,
returning the raised exception or the allocation receipt together with
the state after the call.  The body runs under `self._security_lock`;
single-threaded semantics are embedded.  After committing, the source
calls `self._quantum_memory_balance()`, a method defined nowhere in the
repository, so every committing call raises `AttributeError` (after the
tree has already been mutated) and the success path below this call —
building and returning the receipt dict — is unreachable. -/
def quantum_memory_allocation (st : QState) (process_size priority : Nat)
    (now : Nat) : Except PyErr Unit × QState :=
  match validate_session st now with
  | .error e => (.error e, st)
  | .ok _ =>
    if MAX_MEMORY_ALLOCATION < process_size then (.error .sizeExceeded, st)
    else
      match find_quantum_memory_path st process_size priority now with
      | some fractal_path =>
        let ln := parse_secure_path fractal_path
        let stAfter := commit_allocation st ln.1 ln.2 process_size now
        (.error .attributeError, stAfter)
      | none => (.error .insufficientResources, st)

/-! ## Lifecycle: emergency cleanup and metrics -/

/-- `_emergency_cleanup`: clear every memory node's process list and
utilization, reset compute loads and histories, drop security events.
The body is wrapped in `try/except`, and none of these operations can
raise, so the embedded function is total. -/
def emergency_cleanup (st : QState) : QState :=
  { st with
    memory_fractal := st.memory_fractal.map (List.map fun mn =>
      { mn with active_processes := [], utilization := 0 })
    compute_fractal := st.compute_fractal.map (List.map fun cn =>
      { cn with current_load := 0, load_history := [] })
    security_events := [] }

/-- The `memory_utilization` figure of `get_performance_metrics`:
mean utilization over the `depth * branches` memory nodes (reported as
a percentage string; the embedded value is the underlying ratio). -/
def memory_utilization_metric (st : QState) : ℚ :=
  (st.memory_fractal.map (fun row => (row.map (fun mn => mn.utilization)).sum)).sum /
    ((st.depth : ℚ) * (st.branches : ℚ))

/-- Lock acquisitions, reflecting the `with self._security_lock:` blocks
of the source. -/
inductive LockEvent where
  | acquire
  | release
  deriving DecidableEq, Repr

/-- `quantum_memory_allocation` wraps its whole body in
`with self._security_lock:`. -/
def quantum_memory_allocation_lock_events : List LockEvent := [.acquire, .release]

/-- `get_performance_metrics` wraps its body in
`with self._security_lock:`. -/
def get_performance_metrics_lock_events : List LockEvent := [.acquire, .release]

/-- `_emergency_cleanup` contains no `with self._security_lock:` block:
it mutates the trees without taking the allocator lock. -/
def emergency_cleanup_lock_events : List LockEvent := []

/-! ## Test-harness variant of `QuantumFractalOptimizer`
(`test_quantum_optimizer_stress.py`)

This lighter reimplementation has plain `f"L{level}N{node}"` /
`f"C{level}N{node}"` paths, a per-level `priority = level + 1` floor, no
security gate, first-fit memory allocation and striped CPU
distribution. -/

/-- Memory node of the test variant (`active_threads` analogue elided as
before; process records keep `(size, timestamp)`). -/
structure FMemNode where
  memory_allocation : Nat
  active_processes : List (Nat × Nat)
  utilization : ℚ
  fractal_path : List Char
  priority : Nat
  deriving DecidableEq, Repr

/-- Compute node of the test variant. -/
structure FCompNode where
  assigned_cores : Nat
  current_load : ℚ
  fractal_path : List Char
  efficiency : ℚ
  deriving DecidableEq, Repr

structure FState where
  depth : Nat
  branches : Nat
  total_ram : Nat
  memory_fractal : List (List FMemNode)
  compute_fractal : List (List FCompNode)
  deriving DecidableEq, Repr

def fmemNodeDefault : FMemNode :=
  { memory_allocation := 0, active_processes := [], utilization := 0,
    fractal_path := [], priority := 0 }

/-- `f"L{level}N{node}"`. -/
def fractal_mem_path (level node : Nat) : List Char :=
  .ofNat 76 :: (natDigits level ++ [.ofNat 78] ++ natDigits node)

/-- `f"C{level}N{node}"`. -/
def fractal_comp_path (level node : Nat) : List Char :=
  .ofNat 67 :: (natDigits level ++ [.ofNat 78] ++ natDigits node)

/-- `_create_memory_tree`:
`memory_slice = total_ram // branches**(level+1)`, `priority = level+1`. -/
def create_memory_tree (depth branches total_ram : Nat) : List (List FMemNode) :=
  (List.range depth).map fun level =>
    (List.range branches).map fun node =>
      { memory_allocation := total_ram / branches ^ (level + 1)
        active_processes := []
        utilization := 0
        fractal_path := fractal_mem_path level node
        priority := level + 1 }

/-- `_create_compute_tree`:
`assigned_cores = max(1, cores_per_level // (node + 1))` with
`cores_per_level = max(1, cpu_cores // depth)` (integer division). -/
def create_compute_tree (depth branches cpu_cores : Nat) : List (List FCompNode) :=
  let cores_per_level := max 1 (cpu_cores / depth)
  (List.range depth).map fun level =>
    (List.range branches).map fun node =>
      { assigned_cores := max 1 (cores_per_level / (node + 1))
        current_load := 0
        fractal_path := fractal_comp_path level node
        efficiency := 1 }

/-- `QuantumFractalOptimizer.__init__` of the test variant (no parameter
validation at all). -/
def foptimizer_init (depth branches total_ram cpu_cores : Nat) : FState :=
  { depth := depth
    branches := branches
    total_ram := total_ram
    memory_fractal := create_memory_tree depth branches total_ram
    compute_fractal := create_compute_tree depth branches cpu_cores }

/-- `available = memory_allocation * (1 - utilization)` of node
`(l, n)` of the test-variant memory tree. -/
def favailable (st : FState) (l n : Nat) : ℚ :=
  let node_info := getAt2d fmemNodeDefault st.memory_fractal l n
  (node_info.memory_allocation : ℚ) * (1 - node_info.utilization)

/-- The admission test of `fractal_memory_allocation` at node `(l, n)`:
`available >= process_size and priority >= priority`. -/
def fadmits (st : FState) (process_size priority : Nat) (ln : Nat × Nat) : Bool :=
  let node_info := getAt2d fmemNodeDefault st.memory_fractal ln.1 ln.2
  decide ((process_size : ℚ) ≤ favailable st ln.1 ln.2 ∧ priority ≤ node_info.priority)

/-- Commit of the test variant: append the record and add
`process_size / memory_allocation` (no `min` clamp here). -/
def fcommit (st : FState) (l n process_size now : Nat) : FState :=
  { st with memory_fractal := modify2d (fun mn =>
      { mn with
        active_processes := mn.active_processes ++ [(process_size, now)]
        utilization := mn.utilization +
          (process_size : ℚ) / (mn.memory_allocation : ℚ) }) st.memory_fractal l n }

/-- The nested scan of `fractal_memory_allocation`, over the remaining
level-major coordinates: the first node whose admission test passes is
committed and its path returned. -/
def fractal_alloc_scan (st : FState) (process_size priority now : Nat) :
    List (Nat × Nat) → List Char × FState
  | [] => (("allocation_failed" : String).data, st)
  | ln :: rest =>
    if fadmits st process_size priority ln then
      ((getAt2d fmemNodeDefault st.memory_fractal ln.1 ln.2).fractal_path,
        fcommit st ln.1 ln.2 process_size now)
    else fractal_alloc_scan st process_size priority now rest

/-- `fractal_memory_allocation(process_size, priority)` at time `now`
(the appended record's `time.time()` stamp).  Runs under `self._lock`;
single-threaded semantics are embedded. -/
def fractal_memory_allocation (st : FState) (process_size priority now : Nat) :
    List Char × FState :=
  fractal_alloc_scan st process_size priority now (coords st.depth st.branches)

/-- Inner node loop of `fractal_cpu_distribution` over one level's
nodes, with the running `remaining_complexity`; `break` at
`remaining_complexity <= 0` leaves the rest of the row untouched.
Returns the updated row, the paths appended at this level, and the
remaining complexity. -/
def cpu_dist_row (remaining : Nat) :
    List FCompNode → List FCompNode × List (List Char) × Nat
  | [] => ([], [], remaining)
  | node :: rest =>
    if remaining = 0 then (node :: rest, [], 0)
    else
      let node_capacity := node.assigned_cores * 1000
      let assign_complexity := min remaining node_capacity
      if 0 < assign_complexity then
        let node2 := { node with current_load :=
          node.current_load + (assign_complexity : ℚ) / (node_capacity : ℚ) }
        let r := cpu_dist_row (remaining - assign_complexity) rest
        (node2 :: r.1, node.fractal_path :: r.2.1, r.2.2)
      else
        let r := cpu_dist_row remaining rest
        (node :: r.1, r.2.1, r.2.2)

/-- Outer level loop of `fractal_cpu_distribution` (the `break` of the
source only exits the inner node loop; subsequent levels are still
visited with the exhausted remaining complexity, assigning nothing). -/
def cpu_dist_rows (remaining : Nat) :
    List (List FCompNode) → List (List FCompNode) × List (List Char) × Nat
  | [] => ([], [], remaining)
  | row :: rows =>
    let r := cpu_dist_row remaining row
    let rr := cpu_dist_rows r.2.2 rows
    (r.1 :: rr.1, r.2.1 ++ rr.2.1, rr.2.2)

/-- `fractal_cpu_distribution(computation_complexity)`: stripe the
complexity across the compute nodes in level-major order and return the
touched paths.  Runs under `self._lock`. -/
def fractal_cpu_distribution (st : FState) (computation_complexity : Nat) :
    List (List Char) × FState :=
  let r := cpu_dist_rows computation_complexity st.compute_fractal
  (r.2.1, { st with compute_fractal := r.1 })

/-! ## Indexing lemmas -/

theorem getAt_eq_getD (d : α) : ∀ (xs : List α) (i : Nat), getAt d xs i = xs.getD i d := by
  intro xs
  induction xs with
  | nil => intro i; cases i <;> rfl
  | cons x xs ih =>
    intro i
    cases i with
    | zero => rfl
    | succ j => simpa [getAt, List.getD_cons_succ] using ih j

theorem getAt_range_map (d : β) (f : Nat → β) {k i : Nat} (h : i < k) :
    getAt d ((List.range k).map f) i = f i := by
  rw [getAt_eq_getD, List.getD_eq_getElem?_getD, List.getElem?_map, List.getElem?_range h]
  rfl

theorem getAt2d_range_map (d : β) (f g : Nat → Nat → β) {depth branches l n : Nat}
    (hf : ∀ l n, l < depth → n < branches → f l n = g l n)
    (hl : l < depth) (hn : n < branches) :
    getAt2d d ((List.range depth).map fun l => (List.range branches).map (f l)) l n = g l n := by
  rw [getAt2d, getAt_range_map [] _ hl, getAt_range_map d _ hn, hf l n hl hn]

/-! ## Head of the descending stable sort is a maximum -/

theorem insertionSort_head_max {l : List Cand} {c : Cand} {t : List Cand}
    (h : List.insertionSort candGE l = c :: t) :
    c ∈ l ∧ ∀ x ∈ l, candGE c x := by
  have hperm := List.perm_insertionSort candGE l
  have hmem : c ∈ l := hperm.mem_iff.mp (h ▸ List.mem_cons_self c t)
  refine ⟨hmem, fun x hx => ?_⟩
  have hx2 : x ∈ List.insertionSort candGE l := hperm.symm.mem_iff.mp hx
  rw [h] at hx2
  rcases List.mem_cons.mp hx2 with rfl | hx3
  · exact candGE_refl x
  · have hs := List.sorted_insertionSort candGE l
    rw [h] at hs
    exact List.rel_of_sorted_cons hs x hx3

/-! ## Candidate-list characterization -/

/-- Every candidate of `_find_quantum_memory_path` arises from an
in-range coordinate that passed security validation and the capacity /
priority admission test. -/
theorem mem_search_paths {st : QState} {size priority now : Nat} {c : Cand} :
    c ∈ search_paths st size priority now →
      ∃ l n, l < st.depth ∧ n < st.branches ∧
        validate_node_security st l n now = true ∧
        (size : ℚ) ≤
          (getAt2d memNodeDefault st.memory_fractal l n).memory_allocation *
            (1 - (getAt2d memNodeDefault st.memory_fractal l n).utilization) *
            (1 + (l : ℚ) * (1 / 10)) ∧
        priority ≤ (getAt2d memNodeDefault st.memory_fractal l n).quantum_priority ∧
        c = { path := (getAt2d memNodeDefault st.memory_fractal l n).fractal_path
              qc := (getAt2d memNodeDefault st.memory_fractal l n).memory_allocation *
                (1 - (getAt2d memNodeDefault st.memory_fractal l n).utilization) *
                (1 + (l : ℚ) * (1 / 10))
              level := l } := by
  intro hc
  rcases List.mem_filterMap.mp hc with ⟨⟨l, n⟩, hmem, heq⟩
  rcases mem_coords.mp hmem with ⟨hl, hn⟩
  refine ⟨l, n, hl, hn, ?_⟩
  by_cases hv : validate_node_security st l n now
  · rw [if_pos hv] at heq
    refine ⟨hv, ?_⟩
    by_cases hadm : ((size : ℚ) ≤
        (getAt2d memNodeDefault st.memory_fractal l n).memory_allocation *
          (1 - (getAt2d memNodeDefault st.memory_fractal l n).utilization) *
          (1 + (l : ℚ) * (1 / 10)) ∧
        priority ≤ (getAt2d memNodeDefault st.memory_fractal l n).quantum_priority)
    · rw [if_pos hadm] at heq
      exact ⟨hadm.1, hadm.2, (Option.some_injective _ heq).symm⟩
    · rw [if_neg hadm] at heq
      exact absurd heq (by simp)
  · rw [if_neg hv] at heq
    exact absurd heq (by simp)

/-- The search result, when present, is the path of a candidate whose
`(quantum_capacity, level)` key is lexicographically maximal among all
candidates. -/
theorem find_quantum_memory_path_max {st : QState} {size priority now : Nat}
    {p : List Char} (h : find_quantum_memory_path st size priority now = some p) :
    ∃ c, c ∈ search_paths st size priority now ∧ p = c.path ∧
      ∀ x ∈ search_paths st size priority now, candGE c x := by
  unfold find_quantum_memory_path at h
  rcases hs : List.insertionSort candGE (search_paths st size priority now) with _ | ⟨c, t⟩
  · rw [hs] at h; exact absurd h (by simp)
  · rw [hs] at h
    have hmax := insertionSort_head_max hs
    exact ⟨c, hmax.1, (Option.some_injective _ h).symm, hmax.2⟩

theorem getAt_ge_length (d : α) :
    ∀ (xs : List α) (i : Nat), xs.length ≤ i → getAt d xs i = d := by
  intro xs
  induction xs with
  | nil => intro i _; cases i <;> rfl
  | cons x xs ih =>
    intro i h
    cases i with
    | zero => simp at h
    | succ j => exact ih j (by simpa using h)

theorem getAt_map_cases (f : α → β) (d : β) (d0 : α) (xs : List α) (i : Nat) :
    getAt d (xs.map f) i = f (getAt d0 xs i) ∨ getAt d (xs.map f) i = d := by
  induction xs generalizing i with
  | nil => right; cases i <;> rfl
  | cons x xs ih =>
    cases i with
    | zero => left; rfl
    | succ j => exact ih j

theorem getAt_modifyAt_cases (f : α → α) (d : α) (xs : List α) (i j : Nat) :
    getAt d (modifyAt f xs i) j = getAt d xs j ∨
      (i = j ∧ getAt d (modifyAt f xs i) j = f (getAt d xs j)) := by
  induction xs generalizing i j with
  | nil => left; cases j <;> rfl
  | cons x xs ih =>
    cases i with
    | zero =>
      cases j with
      | zero => right; exact ⟨rfl, rfl⟩
      | succ k => left; rfl
    | succ i0 =>
      cases j with
      | zero => left; rfl
      | succ k =>
        rcases ih i0 k with h | ⟨hk, h⟩
        · left; exact h
        · right; exact ⟨by omega, h⟩

/-- A 2-d in-place update leaves every slot either unchanged or equal to
the updated value of the old slot. -/
theorem getAt2d_modify2d_cases (f : α → α) (d : α) (tree : List (List α))
    (a b l n : Nat) :
    getAt2d d (modify2d f tree a b) l n = getAt2d d tree l n ∨
      (a = l ∧ b = n ∧
        getAt2d d (modify2d f tree a b) l n = f (getAt2d d tree l n)) := by
  unfold getAt2d modify2d
  rcases getAt_modifyAt_cases (fun row => modifyAt f row b) [] tree a l with h | ⟨hal, h⟩
  · left; rw [h]
  · rw [h]
    rcases getAt_modifyAt_cases f d (getAt [] tree l) b n with h2 | ⟨hbn, h2⟩
    · left; rw [h2]
    · right; exact ⟨hal, hbn, h2⟩

/-! ## Utilization invariants -/

/-- Utilizations of the freshly built quantum memory tree are all `0`
(in range by construction, out of range by the default). -/
theorem create_quantum_memory_tree_utilization (depth branches total_ram : Nat)
    (hsuffix : Nat → Nat → List Char) (t0 l n : Nat) :
    (getAt2d memNodeDefault
      (create_quantum_memory_tree depth branches total_ram hsuffix t0) l n).utilization = 0 := by
  unfold create_quantum_memory_tree getAt2d
  rcases getAt_map_cases
      (fun level => (List.range branches).map fun node =>
        ({ memory_allocation :=
             min (total_ram / branches ^ (level + 1) * 2 ^ level)
               (MAX_MEMORY_ALLOCATION / (branches * level + 1))
           active_processes := []
           utilization := 0
           fractal_path := generate_secure_path level node (.ofNat 77) (hsuffix level node)
           quantum_priority := level * 10 + node
           last_accessed := t0 } : MemNode))
      ([] : List MemNode) 0 (List.range depth) l with h | h
  · rw [h]
    rcases getAt_map_cases _ memNodeDefault 0 (List.range branches) n with h2 | h2
    · rw [h2]
    · rw [h2]; rfl
  · rw [h]
    cases n <;> rfl

/-- One step of `quantum_memory_allocation` never decreases any node's
utilization; in particular nonnegative utilizations stay nonnegative. -/
theorem quantum_memory_allocation_nonneg {st : QState} {size priority now : Nat}
    (h : ∀ l n, 0 ≤ (getAt2d memNodeDefault st.memory_fractal l n).utilization) :
    ∀ l n, 0 ≤ (getAt2d memNodeDefault
      (quantum_memory_allocation st size priority now).2.memory_fractal l n).utilization := by
  intro l n
  unfold quantum_memory_allocation
  rcases hv : validate_session st now with e | u
  · simpa using h l n
  · simp only
    by_cases hsz : MAX_MEMORY_ALLOCATION < size
    · rw [if_pos hsz]; exact h l n
    · rw [if_neg hsz]
      rcases hf : find_quantum_memory_path st size priority now with _ | p

      · exact h l n
      · simp only [commit_allocation]
        rcases getAt2d_modify2d_cases
            (fun mn =>
              { mn with
                active_processes := mn.active_processes ++ [(size, now)]
                utilization := mn.utilization +
                  ((min size mn.memory_allocation : Nat) : ℚ) / (mn.memory_allocation : ℚ)
                last_accessed := now })
            memNodeDefault st.memory_fractal (parse_secure_path p).1
            (parse_secure_path p).2 l n with hc | ⟨_, _, hc⟩
        · rw [hc]; exact h l n
        · rw [hc]
          have h1 : (0 : ℚ) ≤ ((min size
              (getAt2d memNodeDefault st.memory_fractal l n).memory_allocation : Nat) : ℚ) /
              ((getAt2d memNodeDefault st.memory_fractal l n).memory_allocation : ℚ) :=
            div_nonneg (Nat.cast_nonneg _) (Nat.cast_nonneg _)
          have h2 := h l n
          simp only
          linarith

/-- Utilizations of the freshly built test-variant memory tree are `0`. -/
theorem create_memory_tree_utilization (depth branches total_ram : Nat) (l n : Nat) :
    (getAt2d fmemNodeDefault (create_memory_tree depth branches total_ram) l n).utilization
      = 0 := by
  unfold create_memory_tree getAt2d
  rcases getAt_map_cases
      (fun level => (List.range branches).map fun node =>
        ({ memory_allocation := total_ram / branches ^ (level + 1)
           active_processes := []
           utilization := 0
           fractal_path := fractal_mem_path level node
           priority := level + 1 } : FMemNode))
      ([] : List FMemNode) 0 (List.range depth) l with h | h
  · rw [h]
    rcases getAt_map_cases _ fmemNodeDefault 0 (List.range branches) n with h2 | h2
    · rw [h2]
    · rw [h2]; rfl
  · rw [h]
    cases n <;> rfl

/-- The bounded-utilization invariant of the test-variant memory tree. -/
def FInv (st : FState) : Prop :=
  ∀ l n, 0 ≤ (getAt2d fmemNodeDefault st.memory_fractal l n).utilization ∧
    (getAt2d fmemNodeDefault st.memory_fractal l n).utilization ≤ 1

/-- A committed first-fit allocation keeps every utilization in `[0, 1]`:
the admission test `available >= process_size` caps the added fraction at
the node's remaining headroom. -/
theorem fcommit_inv {st : FState} {size priority now : Nat} {a b : Nat}
    (hsz : 1 ≤ size) (hadm : fadmits st size priority (a, b) = true)
    (h : FInv st) : FInv (fcommit st a b size now) := by
  intro l n
  simp only [fcommit]
  rcases getAt2d_modify2d_cases
      (fun mn =>
        { mn with
          active_processes := mn.active_processes ++ [(size, now)]
          utilization := mn.utilization + (size : ℚ) / (mn.memory_allocation : ℚ) })
      fmemNodeDefault st.memory_fractal a b l n with hc | ⟨hal, hbn, hc⟩
  · rw [hc]; exact h l n
  · subst hal hbn
    rw [hc]
    have hA := (h a b).1
    have hB := (h a b).2
    have hadm2 : (size : ℚ) ≤
        ((getAt2d fmemNodeDefault st.memory_fractal a b).memory_allocation : ℚ) *
          (1 - (getAt2d fmemNodeDefault st.memory_fractal a b).utilization) := by
      have h0 := of_decide_eq_true hadm
      simpa [favailable] using h0.1
    set u := (getAt2d fmemNodeDefault st.memory_fractal a b).utilization with hu
    set A : ℚ := ((getAt2d fmemNodeDefault st.memory_fractal a b).memory_allocation : ℚ)
      with hA0
    have hAnn : (0 : ℚ) ≤ A := Nat.cast_nonneg _
    rcases eq_or_lt_of_le hAnn with hA0eq | hApos
    · exfalso
      have hz : (size : ℚ) ≤ 0 := by
        rw [← hA0eq] at hadm2
        simpa using hadm2
      have h1 : (1 : ℚ) ≤ (size : ℚ) := by exact_mod_cast hsz
      linarith
    · have hdiv : (size : ℚ) / A ≤ 1 - u := by
        rw [div_le_iff₀ hApos]
        calc (size : ℚ) ≤ A * (1 - u) := hadm2
        _ = (1 - u) * A := mul_comm _ _
      have hdnn : (0 : ℚ) ≤ (size : ℚ) / A := div_nonneg (Nat.cast_nonneg _) hAnn
      constructor
      · simp only
        linarith
      · simp only
        linarith

/-- The nested scan of `fractal_memory_allocation` preserves the
bounded-utilization invariant. -/
theorem fractal_alloc_scan_inv {st : FState} {size priority now : Nat}
    (hsz : 1 ≤ size) (h : FInv st) :
    ∀ cs : List (Nat × Nat), FInv (fractal_alloc_scan st size priority now cs).2 := by
  intro cs
  induction cs with
  | nil => exact h
  | cons ln rest ih =>
    rcases ln with ⟨a, b⟩
    unfold fractal_alloc_scan
    by_cases hadm : fadmits st size priority (a, b) = true
    · rw [if_pos hadm]
      exact fcommit_inv hsz hadm h
    · rw [if_neg hadm]
      exact ih

/-- The scan is exactly a first-fit: it commits at the first coordinate
whose admission test passes (the `List.find?` of the visit order) and
fails if none passes. -/
theorem fractal_alloc_scan_eq_find (st : FState) (size priority now : Nat) :
    ∀ cs : List (Nat × Nat),
      fractal_alloc_scan st size priority now cs =
        match cs.find? (fadmits st size priority) with
        | some ln =>
          ((getAt2d fmemNodeDefault st.memory_fractal ln.1 ln.2).fractal_path,
            fcommit st ln.1 ln.2 size now)
        | none => (("allocation_failed" : String).data, st) := by
  intro cs
  induction cs with
  | nil => rfl
  | cons ln rest ih =>
    unfold fractal_alloc_scan
    by_cases hadm : fadmits st size priority ln = true
    · rw [if_pos hadm, List.find?_cons_of_pos _ hadm]
    · rw [if_neg hadm, List.find?_cons_of_neg _ (by simpa using hadm)]
      exact ih

/-! ## Accounting for `fractal_cpu_distribution` -/

/-- `node_capacity = assigned_cores * 1000`. -/
def nodeCapacity (n : FCompNode) : Nat := n.assigned_cores * 1000

def rowCapacity (row : List FCompNode) : Nat := (row.map nodeCapacity).sum

/-- Total capacity of the compute tree in complexity units. -/
def treeCapacity (tree : List (List FCompNode)) : Nat := (tree.map rowCapacity).sum

/-- Complexity units absorbed by a row, read off the load deltas:
`(new_load - old_load) * node_capacity` summed over the row. -/
def rowAssigned (row row2 : List FCompNode) : ℚ :=
  (List.zipWith (fun a b => (b.current_load - a.current_load) * (nodeCapacity a : ℚ))
    row row2).sum

def treeAssigned (tree tree2 : List (List FCompNode)) : ℚ :=
  (List.zipWith rowAssigned tree tree2).sum

/-- The node picker for the returned paths: a node is "touched" exactly
when its load strictly increased. -/
def touchedPick (p : FCompNode × FCompNode) : Option (List Char) :=
  if p.1.current_load < p.2.current_load then some p.1.fractal_path else none

def touchedPaths (tree tree2 : List (List FCompNode)) : List (List Char) :=
  (List.zipWith (fun r r2 => (List.zip r r2).filterMap touchedPick) tree tree2).flatten

theorem rowAssigned_self (row : List FCompNode) : rowAssigned row row = 0 := by
  induction row with
  | nil => rfl
  | cons x xs ih =>
    simp only [rowAssigned, List.zipWith_cons_cons, List.sum_cons, sub_self, zero_mul, zero_add]
    exact ih

theorem touched_self (row : List FCompNode) :
    (List.zip row row).filterMap touchedPick = [] := by
  induction row with
  | nil => rfl
  | cons x xs ih => simpa [touchedPick, List.zip_cons_cons, List.filterMap_cons] using ih

theorem cpu_dist_row_remaining :
    ∀ (row : List FCompNode) (remaining : Nat),
      (cpu_dist_row remaining row).2.2 = remaining - min remaining (rowCapacity row) := by
  intro row
  induction row with
  | nil => intro remaining; simp [cpu_dist_row, rowCapacity]
  | cons node rest ih =>
    intro remaining
    by_cases h0 : remaining = 0
    · subst h0; simp [cpu_dist_row]
    · simp only [cpu_dist_row, if_neg h0]
      by_cases hpos : 0 < min remaining (node.assigned_cores * 1000)
      · rw [if_pos hpos]
        simp only
        rw [ih (remaining - min remaining (node.assigned_cores * 1000))]
        simp only [rowCapacity, nodeCapacity, List.map_cons, List.sum_cons]
        have h1 := Nat.min_le_left remaining (node.assigned_cores * 1000)
        have h2 := Nat.min_le_right remaining (node.assigned_cores * 1000)
        omega
      · rw [if_neg hpos]
        simp only
        rw [ih remaining]
        simp only [rowCapacity, nodeCapacity, List.map_cons, List.sum_cons]
        have h2 : min remaining (node.assigned_cores * 1000) = 0 := by omega
        have h3 : node.assigned_cores * 1000 = 0 := by
          rcases Nat.min_eq_zero_iff.mp h2 with h | h
          · exact absurd h h0
          · exact h
        rw [h3]
        simp

theorem rowAssigned_cons (a b : FCompNode) (xs ys : List FCompNode) :
    rowAssigned (a :: xs) (b :: ys) =
      (b.current_load - a.current_load) * (nodeCapacity a : ℚ) + rowAssigned xs ys := by
  simp [rowAssigned, List.zipWith_cons_cons]

theorem treeAssigned_cons (r r2 : List FCompNode) (rs rs2 : List (List FCompNode)) :
    treeAssigned (r :: rs) (r2 :: rs2) = rowAssigned r r2 + treeAssigned rs rs2 := by
  simp [treeAssigned, List.zipWith_cons_cons]

theorem cpu_dist_row_assigned :
    ∀ (row : List FCompNode) (remaining : Nat),
      rowAssigned row (cpu_dist_row remaining row).1 =
        (remaining : ℚ) - ((cpu_dist_row remaining row).2.2 : ℚ) := by
  intro row
  induction row with
  | nil => intro remaining; simp [cpu_dist_row, rowAssigned]
  | cons node rest ih =>
    intro remaining
    by_cases h0 : remaining = 0
    · subst h0
      simp only [cpu_dist_row, if_pos rfl, if_true, eq_self_iff_true]
      rw [rowAssigned_self]
      simp
    · simp only [cpu_dist_row, if_neg h0]
      by_cases hpos : 0 < min remaining (node.assigned_cores * 1000)
      · rw [if_pos hpos]
        simp only
        rw [rowAssigned_cons]
        have hcap : (0 : ℚ) < ((node.assigned_cores * 1000 : Nat) : ℚ) := by
          have h1 : 0 < node.assigned_cores * 1000 := by
            have := Nat.min_le_right remaining (node.assigned_cores * 1000)
            omega
          exact_mod_cast h1
        have hfirst :
            (node.current_load +
                ((min remaining (node.assigned_cores * 1000) : Nat) : ℚ) /
                  ((node.assigned_cores * 1000 : Nat) : ℚ) -
              node.current_load) * ((nodeCapacity node : Nat) : ℚ) =
            ((min remaining (node.assigned_cores * 1000) : Nat) : ℚ) := by
          rw [nodeCapacity]
          have hsimp : node.current_load +
              ((min remaining (node.assigned_cores * 1000) : Nat) : ℚ) /
                ((node.assigned_cores * 1000 : Nat) : ℚ) -
              node.current_load =
              ((min remaining (node.assigned_cores * 1000) : Nat) : ℚ) /
                ((node.assigned_cores * 1000 : Nat) : ℚ) := by ring
          rw [hsimp, div_mul_cancel₀ _ (ne_of_gt hcap)]
        rw [hfirst, ih (remaining - min remaining (node.assigned_cores * 1000))]
        have hle : min remaining (node.assigned_cores * 1000) ≤ remaining :=
          Nat.min_le_left _ _
        rw [Nat.cast_sub hle]
        ring
      · rw [if_neg hpos]
        simp only
        rw [rowAssigned_cons]
        simp only [sub_self, zero_mul, zero_add]
        exact ih remaining

theorem cpu_dist_row_paths :
    ∀ (row : List FCompNode) (remaining : Nat),
      (cpu_dist_row remaining row).2.1 =
        (List.zip row (cpu_dist_row remaining row).1).filterMap touchedPick := by
  intro row
  induction row with
  | nil => intro remaining; simp [cpu_dist_row]
  | cons node rest ih =>
    intro remaining
    by_cases h0 : remaining = 0
    · subst h0
      simp only [cpu_dist_row, if_pos rfl, if_true, eq_self_iff_true]
      exact (touched_self _).symm
    · simp only [cpu_dist_row, if_neg h0]
      by_cases hpos : 0 < min remaining (node.assigned_cores * 1000)
      · rw [if_pos hpos]
        simp only [List.zip_cons_cons, List.filterMap_cons]
        have hcap : (0 : ℚ) < ((node.assigned_cores * 1000 : Nat) : ℚ) := by
          have h1 : 0 < node.assigned_cores * 1000 := by
            have := Nat.min_le_right remaining (node.assigned_cores * 1000)
            omega
          exact_mod_cast h1
        have hmin : (0 : ℚ) < ((min remaining (node.assigned_cores * 1000) : Nat) : ℚ) := by
          exact_mod_cast hpos
        have hinc : node.current_load <
            node.current_load +
              ((min remaining (node.assigned_cores * 1000) : Nat) : ℚ) /
                ((node.assigned_cores * 1000 : Nat) : ℚ) := by
          have hq : (0 : ℚ) < ((min remaining (node.assigned_cores * 1000) : Nat) : ℚ) /
              ((node.assigned_cores * 1000 : Nat) : ℚ) := div_pos hmin hcap
          linarith
        rw [touchedPick, if_pos hinc]
        simp only
        rw [ih (remaining - min remaining (node.assigned_cores * 1000))]
      · rw [if_neg hpos]
        simp only [List.zip_cons_cons, List.filterMap_cons]
        rw [touchedPick, if_neg (lt_irrefl _)]
        simp only
        exact ih remaining

theorem cpu_dist_rows_remaining :
    ∀ (rows : List (List FCompNode)) (remaining : Nat),
      (cpu_dist_rows remaining rows).2.2 = remaining - min remaining (treeCapacity rows) := by
  intro rows
  induction rows with
  | nil => intro remaining; simp [cpu_dist_rows, treeCapacity]
  | cons row rest ih =>
    intro remaining
    simp only [cpu_dist_rows]
    rw [ih, cpu_dist_row_remaining]
    simp only [treeCapacity, List.map_cons, List.sum_cons]
    have h1 := Nat.min_le_left remaining (rowCapacity row)
    have h2 := Nat.min_le_right remaining (rowCapacity row)
    omega

theorem cpu_dist_rows_assigned :
    ∀ (rows : List (List FCompNode)) (remaining : Nat),
      treeAssigned rows (cpu_dist_rows remaining rows).1 =
        (remaining : ℚ) - ((cpu_dist_rows remaining rows).2.2 : ℚ) := by
  intro rows
  induction rows with
  | nil => intro remaining; simp [cpu_dist_rows, treeAssigned]
  | cons row rest ih =>
    intro remaining
    simp only [cpu_dist_rows]
    rw [treeAssigned_cons, cpu_dist_row_assigned row remaining,
      ih (cpu_dist_row remaining row).2.2]
    ring

theorem cpu_dist_rows_paths :
    ∀ (rows : List (List FCompNode)) (remaining : Nat),
      (cpu_dist_rows remaining rows).2.1 =
        touchedPaths rows (cpu_dist_rows remaining rows).1 := by
  intro rows
  induction rows with
  | nil => intro remaining; simp [cpu_dist_rows, touchedPaths]
  | cons row rest ih =>
    intro remaining
    simp only [cpu_dist_rows, touchedPaths, List.zipWith_cons_cons, List.flatten_cons]
    rw [cpu_dist_row_paths, ih]
    rfl

/-! ## Cleanup metric -/

theorem cleanup_metric_zero (st : QState) :
    memory_utilization_metric (emergency_cleanup st) = 0 := by
  unfold memory_utilization_metric emergency_cleanup
  simp only
  have hrow : ∀ r : List MemNode,
      (((r.map fun mn => ({ mn with active_processes := [], utilization := 0 } : MemNode))).map
        (fun mn => mn.utilization)).sum = 0 := by
    intro r
    induction r with
    | nil => rfl
    | cons x xs ih => simpa using ih
  have hall : ∀ rows : List (List MemNode),
      ((rows.map (List.map fun mn =>
          ({ mn with active_processes := [], utilization := 0 } : MemNode))).map
        (fun row => (row.map fun mn => mn.utilization).sum)).sum = 0 := by
    intro rows
    induction rows with
    | nil => rfl
    | cons r rs ih =>
      simp only [List.map_cons, List.sum_cons, ih, add_zero]
      exact hrow r
  rw [hall st.memory_fractal, zero_div]

/-! ## Per-level capacity bound of the construction -/

theorem level_capacity_le (b total l m : Nat) (hb : 2 ≤ b) :
    b * min (total / b ^ (l + 1) * 2 ^ l) m ≤ total := by
  have h1 : b * min (total / b ^ (l + 1) * 2 ^ l) m ≤ b * (total / b ^ (l + 1) * 2 ^ l) :=
    Nat.mul_le_mul (le_refl b) (Nat.min_le_left _ _)
  have h2 : 2 ^ l ≤ b ^ l := Nat.pow_le_pow_left hb l
  have h3 : b * (total / b ^ (l + 1) * 2 ^ l) ≤ total := by
    calc b * (total / b ^ (l + 1) * 2 ^ l)
        = total / b ^ (l + 1) * (2 ^ l * b) := by ring
      _ ≤ total / b ^ (l + 1) * (b ^ l * b) := by
          exact Nat.mul_le_mul (le_refl _) (Nat.mul_le_mul h2 (le_refl b))
      _ = total / b ^ (l + 1) * b ^ (l + 1) := by rw [pow_succ]
      _ ≤ total := Nat.div_mul_le_self _ _
  exact le_trans h1 h3

def compNodeDefault : CompNode :=
  { assigned_cores := 0, current_load := 0, fractal_path := [],
    quantum_efficiency := 0, load_history := [] }

/-- Modelled from the spec: `record_security_event(level, node, severity)`
is described in §4.2 of the specification ("raises `threat_level` on a
node and can push it below the trust threshold") but is not implemented
anywhere under `src/`; this definition follows the specification's words
so that states with a raised threat level are expressible. -/
def raise_threat (severity : Int) (s : SecNode) : SecNode :=
  { s with threat_level := s.threat_level + severity }

def record_security_event (st : QState) (level node : Nat) (severity : Int) : QState :=
  { st with security_fractal :=
      modify2d (raise_threat severity) st.security_fractal level node }

/-- A sequence of `quantum_memory_allocation` calls
(`process_size, priority, now` per request); each call's state is
threaded to the next, whether the call raised or not (the Python object
is mutated in place before the raise). -/
def qrun (st : QState) (reqs : List (Nat × Nat × Nat)) : QState :=
  reqs.foldl (fun s r => (quantum_memory_allocation s r.1 r.2.1 r.2.2).2) st

/-- A sequence of `fractal_memory_allocation` calls. -/
def frun (st : FState) (reqs : List (Nat × Nat × Nat)) : FState :=
  reqs.foldl (fun s r => (fractal_memory_allocation s r.1 r.2.1 r.2.2).2) st

theorem qrun_nonneg {st : QState}
    (h : ∀ l n, 0 ≤ (getAt2d memNodeDefault st.memory_fractal l n).utilization) :
    ∀ reqs : List (Nat × Nat × Nat), ∀ l n,
      0 ≤ (getAt2d memNodeDefault (qrun st reqs).memory_fractal l n).utilization := by
  intro reqs
  induction reqs generalizing st with
  | nil => exact h
  | cons r rest ih =>
    exact ih (quantum_memory_allocation_nonneg h)

theorem frun_inv {st : FState} (h : FInv st) :
    ∀ reqs : List (Nat × Nat × Nat), (∀ r ∈ reqs, 1 ≤ r.1) → FInv (frun st reqs) := by
  intro reqs
  induction reqs generalizing st with
  | nil => intro _; exact h
  | cons r rest ih =>
    intro hsz
    refine ih ?_ (fun x hx => hsz x (List.mem_cons_of_mem r hx))
    exact fractal_alloc_scan_inv (hsz r (List.mem_cons_self r rest)) h _

theorem optimizer_init_ok {depth branches security_level total_ram cpu_cores : Nat}
    {hsuffixM hsuffixC hsuffixS : Nat → Nat → List Char} {t0 : Nat} {st : QState}
    (h : optimizer_init depth branches security_level total_ram cpu_cores
      hsuffixM hsuffixC hsuffixS t0 = .ok st) :
    st = { depth := depth
           branches := branches
           total_ram := total_ram
           session_start := t0
           memory_fractal :=
             create_quantum_memory_tree depth branches total_ram hsuffixM t0
           compute_fractal := create_quantum_compute_tree depth branches cpu_cores hsuffixC
           security_fractal := create_security_fractal depth branches hsuffixS t0
           security_events := [] } := by
  unfold optimizer_init at h
  rcases hv : validate_parameters depth branches security_level with e | u
  · rw [hv] at h; exact absurd h (by simp)
  · rw [hv] at h
    exact (Except.ok.injEq _ _ ▸ h :).symm

/-! ## Concrete instances

A fixed hash suffix (sha256 hex digests contain neither `'N'` nor `'_'`),
and the state of a freshly constructed
`QuantumFractalOptimizer(depth=3, branches=2, security_level=3)` on a
machine whose `_get_secure_ram_allocation()` reports the 16 GiB safe
default and 8 CPU cores, with all timestamps at the construction
instant `0`. -/

def hsuf0 : Nat → Nat → List Char := fun _ _ => ("ab12cd34" : String).data

def cexState : QState :=
  { depth := 3
    branches := 2
    total_ram := 16 * 1024 * 1024 * 1024
    session_start := 0
    memory_fractal := create_quantum_memory_tree 3 2 (16 * 1024 * 1024 * 1024) hsuf0 0
    compute_fractal := create_quantum_compute_tree 3 2 8 hsuf0
    security_fractal := create_security_fractal 3 2 hsuf0 0
    security_events := [] }

/-- Test-variant optimizer over the same machine profile. -/
def cexFState : FState := foptimizer_init 3 2 (16 * 1024 * 1024 * 1024) 8

/-- The security node of `cexState` at `(0, 0)` after the spec-modelled
`record_security_event` raised its threat level by 60. -/
def secX : SecNode :=
  { last_scan := 0
    security_score := 100
    fractal_path := generate_secure_path 0 0 (.ofNat 83) (hsuf0 0 0)
    threat_level := 60 }

/-! ## Per-level sums of the freshly built memory trees -/

theorem level_capacity_le_plain (b total l : Nat) (hb : 1 ≤ b) :
    b * (total / b ^ (l + 1)) ≤ total := by
  have h1 : b ≤ b ^ (l + 1) := by
    calc b = b ^ 1 := (pow_one b).symm
    _ ≤ b ^ (l + 1) := Nat.pow_le_pow_right hb (by omega)
  calc b * (total / b ^ (l + 1)) = total / b ^ (l + 1) * b := by ring
    _ ≤ total / b ^ (l + 1) * b ^ (l + 1) := Nat.mul_le_mul (le_refl _) h1
    _ ≤ total := Nat.div_mul_le_self _ _

theorem quantum_tree_level_sum (depth branches total_ram : Nat)
    (hsuffix : Nat → Nat → List Char) (t0 l : Nat) (hb : 2 ≤ branches) :
    ((getAt [] (create_quantum_memory_tree depth branches total_ram hsuffix t0) l).map
      (fun mn => mn.memory_allocation)).sum ≤ total_ram := by
  by_cases hl : l < depth
  · unfold create_quantum_memory_tree
    rw [getAt_range_map [] _ hl, List.map_map]
    have hconst : ((fun mn => mn.memory_allocation) ∘ fun node =>
        ({ memory_allocation :=
             min (total_ram / branches ^ (l + 1) * 2 ^ l)
               (MAX_MEMORY_ALLOCATION / (branches * l + 1))
           active_processes := []
           utilization := 0
           fractal_path := generate_secure_path l node (.ofNat 77) (hsuffix l node)
           quantum_priority := l * 10 + node
           last_accessed := t0 } : MemNode)) = fun _ =>
        min (total_ram / branches ^ (l + 1) * 2 ^ l)
          (MAX_MEMORY_ALLOCATION / (branches * l + 1)) := rfl
    rw [hconst, List.map_const', List.sum_replicate, List.length_range, smul_eq_mul]
    exact level_capacity_le branches total_ram l _ hb
  · rw [getAt_ge_length]
    · simp
    · simp only [create_quantum_memory_tree, List.length_map, List.length_range]
      omega

theorem test_tree_level_sum (depth branches total_ram : Nat) (l : Nat) (hb : 2 ≤ branches) :
    ((getAt [] (create_memory_tree depth branches total_ram) l).map
      (fun mn => mn.memory_allocation)).sum ≤ total_ram := by
  by_cases hl : l < depth
  · unfold create_memory_tree
    rw [getAt_range_map [] _ hl, List.map_map]
    have hconst : ((fun mn => mn.memory_allocation) ∘ fun node =>
        ({ memory_allocation := total_ram / branches ^ (l + 1)
           active_processes := []
           utilization := 0
           fractal_path := fractal_mem_path l node
           priority := l + 1 } : FMemNode)) = fun _ => total_ram / branches ^ (l + 1) := rfl
    rw [hconst, List.map_const', List.sum_replicate, List.length_range, smul_eq_mul]
    exact level_capacity_le_plain branches total_ram l (by omega)
  · rw [getAt_ge_length]
    · simp
    · simp only [create_memory_tree, List.length_map, List.length_range]
      omega

theorem create_quantum_memory_tree_node {depth branches total_ram : Nat}
    {hsuffix : Nat → Nat → List Char} {t0 l n : Nat} (hl : l < depth) (hn : n < branches) :
    getAt2d memNodeDefault (create_quantum_memory_tree depth branches total_ram hsuffix t0)
      l n =
      { memory_allocation :=
          min (total_ram / branches ^ (l + 1) * 2 ^ l)
            (MAX_MEMORY_ALLOCATION / (branches * l + 1))
        active_processes := []
        utilization := 0
        fractal_path := generate_secure_path l n (.ofNat 77) (hsuffix l n)
        quantum_priority := l * 10 + n
        last_accessed := t0 } := by
  unfold create_quantum_memory_tree
  exact getAt2d_range_map memNodeDefault _ _ (fun _ _ _ _ => rfl) hl hn

/-- The fresh security node of the concrete allocator below. -/
def secFresh : SecNode :=
  { last_scan := 0
    security_score := 100
    fractal_path := generate_secure_path 0 0 (.ofNat 83) (hsuf0 0 0)
    threat_level := 0 }

/-- `quantum_memory_allocation` never changes the tree shape or any
node's `fractal_path`: a call that raises before committing returns the
state unchanged, and a committing call touches only `active_processes`,
`utilization` and `last_accessed` of the chosen node. -/
theorem quantum_memory_allocation_preserves (st : QState) (size priority now : Nat) :
    (quantum_memory_allocation st size priority now).2.depth = st.depth ∧
    (quantum_memory_allocation st size priority now).2.branches = st.branches ∧
    ∀ l n,
      (getAt2d memNodeDefault
        (quantum_memory_allocation st size priority now).2.memory_fractal l n).fractal_path
        =
      (getAt2d memNodeDefault st.memory_fractal l n).fractal_path := by
  unfold quantum_memory_allocation
  rcases hv : validate_session st now with e | u
  · exact ⟨rfl, rfl, fun l n => rfl⟩
  · simp only
    by_cases hsz : MAX_MEMORY_ALLOCATION < size
    · rw [if_pos hsz]
      exact ⟨rfl, rfl, fun l n => rfl⟩
    · rw [if_neg hsz]
      rcases hf : find_quantum_memory_path st size priority now with _ | p
      · exact ⟨rfl, rfl, fun l n => rfl⟩
      · refine ⟨rfl, rfl, fun l n => ?_⟩
        simp only [commit_allocation]
        rcases getAt2d_modify2d_cases
            (fun mn =>
              { mn with
                active_processes := mn.active_processes ++ [(size, now)]
                utilization := mn.utilization +
                  ((min size mn.memory_allocation : Nat) : ℚ) / (mn.memory_allocation : ℚ)
                last_accessed := now })
            memNodeDefault st.memory_fractal (parse_secure_path p).1
            (parse_secure_path p).2 l n with hc | ⟨_, _, hc⟩
        · rw [hc]
        · rw [hc]

/-- Tree shape and node paths are invariant along any sequence of
allocation calls. -/
theorem qrun_preserves (st : QState) (reqs : List (Nat × Nat × Nat)) :
    (qrun st reqs).depth = st.depth ∧
    (qrun st reqs).branches = st.branches ∧
    ∀ l n,
      (getAt2d memNodeDefault (qrun st reqs).memory_fractal l n).fractal_path =
        (getAt2d memNodeDefault st.memory_fractal l n).fractal_path := by
  induction reqs generalizing st with
  | nil => exact ⟨rfl, rfl, fun _ _ => rfl⟩
  | cons r rest ih =>
    have h1 := quantum_memory_allocation_preserves st r.1 r.2.1 r.2.2
    have h2 := ih (quantum_memory_allocation st r.1 r.2.1 r.2.2).2
    exact ⟨h2.1.trans h1.1, h2.2.1.trans h1.2.1,
      fun l n => (h2.2.2 l n).trans (h1.2.2 l n)⟩

theorem optimizer_init_validated {depth branches security_level total_ram cpu_cores : Nat}
    {hsuffixM hsuffixC hsuffixS : Nat → Nat → List Char} {t0 : Nat} {st : QState}
    (h : optimizer_init depth branches security_level total_ram cpu_cores
      hsuffixM hsuffixC hsuffixS t0 = .ok st) :
    validate_parameters depth branches security_level = .ok () := by
  unfold optimizer_init at h
  rcases hv : validate_parameters depth branches security_level with e | u
  · rw [hv] at h
    exact absurd h (by simp)
  · cases u
    rfl

theorem validate_parameters_bounds {depth branches security_level : Nat}
    (h : validate_parameters depth branches security_level = .ok ()) :
    depth ≤ 8 ∧ branches ≤ 16 := by
  unfold validate_parameters MIN_FRACTAL_DEPTH MAX_FRACTAL_BRANCHES at h
  split_ifs at h with h1 h2 h3
  omega

/-! # Claims -/

/-- C1 (amended).  Starting from any freshly built tree, utilization
never goes negative under either allocation operation, and under the
test variant `fractal_memory_allocation` it also never exceeds 1.0.  As
stated the claim is false for `quantum_memory_allocation`: its admission
test compares the request against `quantum_capacity =
available * (1.0 + level * 0.1)` rather than `available`, so a node at
level ≥ 1 can admit more than its remaining headroom and be pushed above
1.0 (see the counterexample). -/
theorem claim_C1 :
    (∀ (depth branches security_level total_ram cpu_cores : Nat)
      (hsuffixM hsuffixC hsuffixS : Nat → Nat → List Char) (t0 : Nat) (st : QState),
      optimizer_init depth branches security_level total_ram cpu_cores
        hsuffixM hsuffixC hsuffixS t0 = .ok st →
      ∀ (reqs : List (Nat × Nat × Nat)) (l n : Nat),
        0 ≤ (getAt2d memNodeDefault (qrun st reqs).memory_fractal l n).utilization) ∧
    (∀ (depth branches total_ram cpu_cores : Nat) (reqs : List (Nat × Nat × Nat)),
      (∀ r ∈ reqs, 1 ≤ r.1) →
      FInv (frun (foptimizer_init depth branches total_ram cpu_cores) reqs)) := by
  constructor
  · intro depth branches security_level total_ram cpu_cores hM hC hS t0 st h reqs l n
    have hst := optimizer_init_ok h
    subst hst
    refine qrun_nonneg (fun l2 n2 => ?_) reqs l n
    exact le_of_eq
      (create_quantum_memory_tree_utilization depth branches total_ram hM t0 l2 n2).symm
  · intro depth branches total_ram cpu_cores reqs hsz
    refine frun_inv (fun l2 n2 => ?_) reqs hsz
    constructor
    · exact le_of_eq (create_memory_tree_utilization depth branches total_ram l2 n2).symm
    · show (getAt2d fmemNodeDefault (create_memory_tree depth branches total_ram)
          l2 n2).utilization ≤ 1
      rw [create_memory_tree_utilization]
      norm_num

theorem claim_C1_witness :
    (0 ≤ (getAt2d memNodeDefault
      (qrun cexState [(100, 1, 0)]).memory_fractal 1 0).utilization) ∧
    FInv (frun (foptimizer_init 3 2 17179869184 8) [(10, 1, 0)]) :=
  ⟨claim_C1.1 3 2 3 17179869184 8 hsuf0 hsuf0 hsuf0 0 cexState (by decide) [(100, 1, 0)] 1 0,
   claim_C1.2 3 2 17179869184 8 [(10, 1, 0)] (by decide)⟩

theorem claim_C1_counterexample :
    optimizer_init 3 2 3 17179869184 8 hsuf0 hsuf0 hsuf0 0 = .ok cexState ∧
    1 < (getAt2d memNodeDefault (qrun cexState
      [(8589934592, 1, 0), (100, 1, 0), (6299285300, 1, 0), (5726623000, 1, 0)]).memory_fractal
      1 0).utilization :=
  ⟨by decide, by decide⟩

/-- C2 (code bug).  The claim — a live allocation call either returns a
handle or fails with one of the three documented errors — matches the
intent of the source (its own `main()` expects a receipt dict), but the
code calls the undefined method `_quantum_memory_balance` on every
committing path, so the example call of `main()`-shape below, on a fresh
allocator with a valid session, escapes with `AttributeError` instead of
returning a handle. -/
theorem claim_C2 :
    optimizer_init 3 2 3 17179869184 8 hsuf0 hsuf0 hsuf0 0 = .ok cexState ∧
    validate_session cexState 0 = .ok () ∧
    (quantum_memory_allocation cexState 1048576 2 0).1 = .error .attributeError :=
  ⟨by decide, by decide, by decide⟩

/-- C3 (amended).  When `_find_quantum_memory_path` succeeds, the chosen
candidate maximizes `(quantum_capacity, level)` — not `(available,
level)` as claimed — under descending lexicographic order, where
`quantum_capacity = available * (1.0 + level * 0.1)`; and the test
variant `fractal_memory_allocation` does not maximize anything: it is a
first-fit over the level-major visit order. -/
theorem claim_C3 :
    (∀ (st : QState) (size priority now : Nat) (p : List Char),
      find_quantum_memory_path st size priority now = some p →
      ∃ c, c ∈ search_paths st size priority now ∧ p = c.path ∧
        ∀ x ∈ search_paths st size priority now, candGE c x) ∧
    (∀ (st : FState) (size priority now : Nat),
      fractal_memory_allocation st size priority now =
        match (coords st.depth st.branches).find? (fadmits st size priority) with
        | some ln =>
          ((getAt2d fmemNodeDefault st.memory_fractal ln.1 ln.2).fractal_path,
            fcommit st ln.1 ln.2 size now)
        | none => (("allocation_failed" : String).data, st)) :=
  ⟨fun _ _ _ _ _ h => find_quantum_memory_path_max h,
   fun st size priority now => fractal_alloc_scan_eq_find st size priority now _⟩

theorem claim_C3_witness :
    ∃ c, c ∈ search_paths cexState 100 1 0 ∧ ("M0N1_ab12cd34" : String).data = c.path ∧
      ∀ x ∈ search_paths cexState 100 1 0, candGE c x :=
  claim_C3.1 cexState 100 1 0 (("M0N1_ab12cd34" : String).data) (by decide)

theorem claim_C3_counterexample :
    (fractal_memory_allocation (fractal_memory_allocation cexFState 10 1 0).2 10 1 0).1 =
      fractal_mem_path 0 0 ∧
    fadmits (fractal_memory_allocation cexFState 10 1 0).2 10 1 (0, 1) = true ∧
    favailable (fractal_memory_allocation cexFState 10 1 0).2 0 0 <
      favailable (fractal_memory_allocation cexFState 10 1 0).2 0 1 :=
  ⟨by decide, by decide, by decide⟩

/-- C4 (amended).  A session is valid iff the elapsed time is **at
most** the timeout (the source tests `session_duration >
SESSION_TIMEOUT`, so elapsed time exactly equal to the timeout is still
valid, against the claimed strict bound); once expired, every
`quantum_memory_allocation` call fails with the session-expired error
before reading or mutating any node (the state is returned unchanged). -/
theorem claim_C4 :
    (∀ (st : QState) (now : Nat),
      validate_session st now = .ok () ↔
        ((now : ℚ) - (st.session_start : ℚ)) / (10 ^ 9 : ℚ) ≤ (SESSION_TIMEOUT : ℚ)) ∧
    (∀ (st : QState) (now : Nat),
      (SESSION_TIMEOUT : ℚ) < ((now : ℚ) - (st.session_start : ℚ)) / (10 ^ 9 : ℚ) →
      ∀ size priority,
        quantum_memory_allocation st size priority now = (.error .sessionExpired, st)) := by
  constructor
  · intro st now
    unfold validate_session
    by_cases h : (SESSION_TIMEOUT : ℚ) <
        ((now : ℚ) - (st.session_start : ℚ)) / (10 ^ 9 : ℚ)
    · rw [if_pos h]
      exact iff_of_false (by simp) (not_le.mpr h)
    · rw [if_neg h]
      exact iff_of_true rfl (not_lt.mp h)
  · intro st now h size priority
    have hv : validate_session st now = .error .sessionExpired := by
      unfold validate_session
      rw [if_pos h]
    unfold quantum_memory_allocation
    rw [hv]

theorem claim_C4_witness :
    quantum_memory_allocation cexState 10 1 (301 * 10 ^ 9) = (.error .sessionExpired, cexState) :=
  claim_C4.2 cexState (301 * 10 ^ 9) (by decide) 10 1

theorem claim_C4_counterexample :
    validate_session cexState (300 * 10 ^ 9) = .ok () ∧
    ¬(((300 * 10 ^ 9 : Nat) : ℚ) - (cexState.session_start : ℚ)) / (10 ^ 9 : ℚ) <
      (SESSION_TIMEOUT : ℚ) :=
  ⟨by decide, by decide⟩

/-- C5 (amended).  Node security validation returns true iff the node\'s
trust score exceeds 70 AND it was scanned within the last 60 seconds
**AND its threat level is at most 50** (the claim omits the threat-level
conjunct, which the source checks first); and at every point in the
allocator\'s life — after any sequence of allocation calls on a freshly
built allocator — a node currently failing the check is never selected
by the placement search, and becomes eligible again exactly when the
three conditions are restored. -/
theorem claim_C5 :
    (∀ (st : QState) (l n now : Nat) (s : SecNode),
      (st.security_fractal.get? l).bind (fun row => row.get? n) = some s →
      (validate_node_security st l n now = true ↔
        (s.threat_level ≤ 50 ∧
          ((now : ℚ) - (s.last_scan : ℚ)) / (10 ^ 9 : ℚ) ≤ 60 ∧
          (70 : ℚ) < s.security_score))) ∧
    (∀ (depth branches security_level total_ram cpu_cores : Nat)
      (hsuffixM hsuffixC hsuffixS : Nat → Nat → List Char) (t0 : Nat) (st0 : QState),
      optimizer_init depth branches security_level total_ram cpu_cores
        hsuffixM hsuffixC hsuffixS t0 = .ok st0 →
      ∀ (reqs : List (Nat × Nat × Nat)) (size priority now l n : Nat),
        l < depth → n < branches →
        validate_node_security (qrun st0 reqs) l n now = false →
        find_quantum_memory_path (qrun st0 reqs) size priority now ≠
          some (generate_secure_path l n (.ofNat 77) (hsuffixM l n))) := by
  constructor
  · intro st l n now s h
    have hval : validate_node_security st l n now =
        (if 50 < s.threat_level ∨
            (60 : ℚ) < ((now : ℚ) - (s.last_scan : ℚ)) / (10 ^ 9 : ℚ) then
          false
        else decide ((70 : ℚ) < s.security_score)) := by
      unfold validate_node_security
      rw [h]
    rw [hval]
    by_cases hcond : (50 < s.threat_level ∨
        (60 : ℚ) < ((now : ℚ) - (s.last_scan : ℚ)) / (10 ^ 9 : ℚ))
    · rw [if_pos hcond]
      refine iff_of_false (by simp) (fun hc => ?_)
      rcases hcond with h1 | h1
      · omega
      · linarith [hc.2.1]
    · rw [if_neg hcond]
      push_neg at hcond
      simp only [decide_eq_true_eq]
      exact ⟨fun hs => ⟨by omega, hcond.2, hs⟩, fun hc => hc.2.2⟩
  · intro depth branches security_level total_ram cpu_cores hM hC hS t0 st0 hinit
      reqs size priority now l n hl hn hvfalse heq
    have hbounds := validate_parameters_bounds (optimizer_init_validated hinit)
    have hst0 := optimizer_init_ok hinit
    have hpres := qrun_preserves st0 reqs
    rcases find_quantum_memory_path_max heq with ⟨c, hcmem, hpath, _⟩
    rcases mem_search_paths hcmem with ⟨l2, n2, hl2, hn2, hv2, _, _, hc⟩
    have hdep : (qrun st0 reqs).depth = depth := by rw [hpres.1, hst0]
    have hbr : (qrun st0 reqs).branches = branches := by rw [hpres.2.1, hst0]
    rw [hdep] at hl2
    rw [hbr] at hn2
    rw [hc] at hpath
    simp only at hpath
    rw [hpres.2.2 l2 n2] at hpath
    have hmem0 : (getAt2d memNodeDefault st0.memory_fractal l2 n2).fractal_path =
        generate_secure_path l2 n2 (.ofNat 77) (hM l2 n2) := by
      rw [hst0]
      exact congrArg MemNode.fractal_path (create_quantum_memory_tree_node hl2 hn2)
    rw [hmem0] at hpath
    have h1 := parse_generate_roundtrip (.ofNat 77) (by decide) (by decide) l n
      (lt_of_lt_of_le hl hbounds.1) (lt_of_lt_of_le hn hbounds.2) (hM l n)
    have h2 := parse_generate_roundtrip (.ofNat 77) (by decide) (by decide) l2 n2
      (lt_of_lt_of_le hl2 hbounds.1) (lt_of_lt_of_le hn2 hbounds.2) (hM l2 n2)
    have hln : (l, n) = (l2, n2) := by
      rw [← h1, ← h2, hpath]
    have hl3 : l = l2 := congrArg Prod.fst hln
    have hn3 : n = n2 := congrArg Prod.snd hln
    subst hl3
    subst hn3
    rw [hvfalse] at hv2
    exact absurd hv2 (by simp)

theorem claim_C5_witness :
    (validate_node_security cexState 0 0 0 = true ↔
      (secFresh.threat_level ≤ 50 ∧
        ((0 : ℚ) - (secFresh.last_scan : ℚ)) / (10 ^ 9 : ℚ) ≤ 60 ∧
        (70 : ℚ) < secFresh.security_score)) ∧
    find_quantum_memory_path (qrun cexState [(100, 1, 0)]) 100 1 (61 * 10 ^ 9) ≠
      some (generate_secure_path 0 0 (.ofNat 77) (hsuf0 0 0)) :=
  ⟨claim_C5.1 cexState 0 0 0 secFresh (by decide),
   claim_C5.2 3 2 3 17179869184 8 hsuf0 hsuf0 hsuf0 0 cexState (by decide)
     [(100, 1, 0)] 100 1 (61 * 10 ^ 9) 0 0 (by decide) (by decide) (by decide)⟩

theorem claim_C5_counterexample :
    ((record_security_event cexState 0 0 60).security_fractal.get? 0).bind
      (fun row => row.get? 0) = some secX ∧
    (70 : ℚ) < secX.security_score ∧
    ((0 : ℚ) - (secX.last_scan : ℚ)) / (10 ^ 9 : ℚ) ≤ 60 ∧
    validate_node_security (record_security_event cexState 0 0 60) 0 0 0 = false :=
  ⟨by decide, by decide, by decide, by decide⟩

/-- C6.  `fractal_cpu_distribution` stripes the requested complexity
across the compute nodes in level-major visit order, assigning each
visited node `min(remaining, node_capacity)` and adding the assigned
fraction to its load: the total complexity absorbed (read off the load
deltas weighted by node capacity) equals `min(c, total tree capacity)`,
a request beyond total capacity returns normally with the excess
dropped, and the returned paths are exactly the touched nodes (those
whose load strictly increased) in visit order. -/
theorem claim_C6 :
    ∀ (st : FState) (c : Nat),
      treeAssigned st.compute_fractal
          (fractal_cpu_distribution st c).2.compute_fractal =
        ((min c (treeCapacity st.compute_fractal) : Nat) : ℚ) ∧
      (fractal_cpu_distribution st c).1 =
        touchedPaths st.compute_fractal
          (fractal_cpu_distribution st c).2.compute_fractal := by
  intro st c
  constructor
  · show treeAssigned st.compute_fractal (cpu_dist_rows c st.compute_fractal).1 = _
    rw [cpu_dist_rows_assigned, cpu_dist_rows_remaining,
      Nat.cast_sub (Nat.min_le_left c (treeCapacity st.compute_fractal))]
    ring
  · show (cpu_dist_rows c st.compute_fractal).2.1 =
      touchedPaths st.compute_fractal (cpu_dist_rows c st.compute_fractal).1
    exact cpu_dist_rows_paths st.compute_fractal c

/-- C7 (amended).  `_emergency_cleanup` never throws (its embedding is a
total function; the source body is wrapped in a bare `try/except`), and
on completion every memory node has an empty `active_processes` list and
utilization 0.0, every compute node has `current_load` 0.0 (and an empty
load history), so a subsequent metrics snapshot reports memory
utilization 0.  The claim's remaining conjunct is false: unlike
`quantum_memory_allocation` and `get_performance_metrics`, the cleanup
body contains no `with self._security_lock:` block, so it does NOT
execute under the allocator lock. -/
theorem claim_C7 :
    (∀ (st : QState) (l n : Nat),
      (getAt2d memNodeDefault (emergency_cleanup st).memory_fractal l n).active_processes
        = [] ∧
      (getAt2d memNodeDefault (emergency_cleanup st).memory_fractal l n).utilization = 0) ∧
    (∀ (st : QState) (l n : Nat),
      (getAt2d compNodeDefault (emergency_cleanup st).compute_fractal l n).current_load
        = 0 ∧
      (getAt2d compNodeDefault (emergency_cleanup st).compute_fractal l n).load_history
        = []) ∧
    (∀ st : QState, (emergency_cleanup st).security_events = []) ∧
    (∀ st : QState, memory_utilization_metric (emergency_cleanup st) = 0) ∧
    LockEvent.acquire ∉ emergency_cleanup_lock_events := by
  refine ⟨?_, ?_, fun st => rfl, cleanup_metric_zero, by decide⟩
  · intro st l n
    unfold emergency_cleanup getAt2d
    simp only
    rcases getAt_map_cases (List.map fun mn =>
        ({ mn with active_processes := [], utilization := 0 } : MemNode))
        ([] : List MemNode) [] st.memory_fractal l with h | h
    · rw [h]
      rcases getAt_map_cases (fun mn =>
          ({ mn with active_processes := [], utilization := 0 } : MemNode))
          memNodeDefault memNodeDefault (getAt [] st.memory_fractal l) n with h2 | h2
      · rw [h2]; exact ⟨rfl, rfl⟩
      · rw [h2]; exact ⟨rfl, rfl⟩
    · rw [h]
      cases n <;> exact ⟨rfl, rfl⟩
  · intro st l n
    unfold emergency_cleanup getAt2d
    simp only
    rcases getAt_map_cases (List.map fun cn =>
        ({ cn with current_load := 0, load_history := [] } : CompNode))
        ([] : List CompNode) [] st.compute_fractal l with h | h
    · rw [h]
      rcases getAt_map_cases (fun cn =>
          ({ cn with current_load := 0, load_history := [] } : CompNode))
          compNodeDefault compNodeDefault (getAt [] st.compute_fractal l) n with h2 | h2
      · rw [h2]; exact ⟨rfl, rfl⟩
      · rw [h2]; exact ⟨rfl, rfl⟩
    · rw [h]
      cases n <;> exact ⟨rfl, rfl⟩

theorem claim_C7_counterexample :
    LockEvent.acquire ∈ quantum_memory_allocation_lock_events ∧
    LockEvent.acquire ∈ get_performance_metrics_lock_events ∧
    LockEvent.acquire ∉ emergency_cleanup_lock_events := by decide

/-- C8 (amended).  Construction fails (with the `QuantumSecurityError`
of `_validate_parameters`) iff `depth ∉ [3, 8]` or `branches ∉ [2, 16]`
**or `security_level ∉ [1, 5]`**; no total-capacity parameter exists (the
capacity is read from the machine), so the claimed `total_capacity <= 0`
failure condition does not exist and the claimed iff is false (see the
counterexample, inside the claimed bounds with positive capacity yet
failing on `security_level`).  Within bounds, construction succeeds and
builds all three trees with exactly `depth` levels of `branches` nodes
each. -/
theorem claim_C8 :
    (∀ depth branches security_level : Nat,
      validate_parameters depth branches security_level = .ok () ↔
        (3 ≤ depth ∧ depth ≤ 8 ∧ 2 ≤ branches ∧ branches ≤ 16 ∧
          1 ≤ security_level ∧ security_level ≤ 5)) ∧
    (∀ (depth branches security_level total_ram cpu_cores : Nat)
      (hsuffixM hsuffixC hsuffixS : Nat → Nat → List Char) (t0 : Nat) (st : QState),
      optimizer_init depth branches security_level total_ram cpu_cores
        hsuffixM hsuffixC hsuffixS t0 = .ok st →
      st.memory_fractal.length = depth ∧
      (∀ row ∈ st.memory_fractal, row.length = branches) ∧
      st.compute_fractal.length = depth ∧
      (∀ row ∈ st.compute_fractal, row.length = branches) ∧
      st.security_fractal.length = depth ∧
      (∀ row ∈ st.security_fractal, row.length = branches)) := by
  constructor
  · intro depth branches security_level
    unfold validate_parameters MIN_FRACTAL_DEPTH MAX_FRACTAL_BRANCHES
    constructor
    · intro hok
      split_ifs at hok with h1 h2 h3
      omega
    · intro hc
      have c1 : ¬¬(3 ≤ depth ∧ depth ≤ 8) := by omega
      have c2 : ¬¬(2 ≤ branches ∧ branches ≤ 16) := by omega
      have c3 : ¬¬(1 ≤ security_level ∧ security_level ≤ 5) := by omega
      rw [if_neg c1, if_neg c2, if_neg c3]
  · intro depth branches security_level total_ram cpu_cores hM hC hS t0 st h
    have hst := optimizer_init_ok h
    subst hst
    refine ⟨by simp [create_quantum_memory_tree], fun row hrow => ?_,
      by simp [create_quantum_compute_tree], fun row hrow => ?_,
      by simp [create_security_fractal], fun row hrow => ?_⟩
    · rcases List.mem_map.mp hrow with ⟨i, _, hrw⟩
      rw [← hrw]; simp
    · rcases List.mem_map.mp hrow with ⟨i, _, hrw⟩
      rw [← hrw]; simp
    · rcases List.mem_map.mp hrow with ⟨i, _, hrw⟩
      rw [← hrw]; simp

theorem claim_C8_witness :
    cexState.memory_fractal.length = 3 ∧
    (∀ row ∈ cexState.memory_fractal, row.length = 2) ∧
    cexState.compute_fractal.length = 3 ∧
    (∀ row ∈ cexState.compute_fractal, row.length = 2) ∧
    cexState.security_fractal.length = 3 ∧
    (∀ row ∈ cexState.security_fractal, row.length = 2) :=
  claim_C8.2 3 2 3 17179869184 8 hsuf0 hsuf0 hsuf0 0 cexState (by decide)

theorem claim_C8_counterexample :
    optimizer_init 5 8 0 100 8 hsuf0 hsuf0 hsuf0 0 = .error .badParameters ∧
    3 ≤ 5 ∧ 5 ≤ 8 ∧ 2 ≤ 8 ∧ 8 ≤ 16 ∧ 0 < 100 :=
  ⟨by decide, by decide, by decide, by decide, by decide, by decide⟩

/-- C9.  In both freshly built memory trees, the sum of the initial
per-node allocations over any single level never exceeds the configured
total capacity — for the quantum tree even with the `quantum_factor =
2^level` inflation and the per-node ceiling clamp applied, because
`branches * (total // branches^(level+1)) * 2^level ≤ total * (2/branches)^level`
and `branches ≥ 2`. -/
theorem claim_C9 :
    ∀ (depth branches total_ram : Nat) (hsuffix : Nat → Nat → List Char) (t0 l : Nat),
      2 ≤ branches →
      ((getAt [] (create_quantum_memory_tree depth branches total_ram hsuffix t0) l).map
        (fun mn => mn.memory_allocation)).sum ≤ total_ram ∧
      ((getAt [] (create_memory_tree depth branches total_ram) l).map
        (fun mn => mn.memory_allocation)).sum ≤ total_ram :=
  fun depth branches total_ram hsuffix t0 l hb =>
    ⟨quantum_tree_level_sum depth branches total_ram hsuffix t0 l hb,
     test_tree_level_sum depth branches total_ram l hb⟩

theorem claim_C9_witness :
    ((getAt [] (create_quantum_memory_tree 3 2 17179869184 hsuf0 0) 1).map
      (fun mn => mn.memory_allocation)).sum ≤ 17179869184 ∧
    ((getAt [] (create_memory_tree 3 2 17179869184) 1).map
      (fun mn => mn.memory_allocation)).sum ≤ 17179869184 :=
  claim_C9 3 2 17179869184 hsuf0 0 1 (by decide)

/-- C10 (amended).  For every level `< 8` and node `< 16` (the ranges
the constructor admits) and every single-character prefix **other than
`'N'` and `'_'`**, `_parse_secure_path` inverts `_generate_secure_path`
regardless of the hash suffix; the parser itself is total, returning
`(0, 0)` where Python's bare `except` catches a failure.  As stated over
all single-character prefixes the claim is false: a prefix of `'N'` or
`'_'` derails the split-based parsing (see the counterexample). -/
theorem claim_C10 :
    ∀ (pref : Char), pref ≠ .ofNat 78 → pref ≠ .ofNat 95 →
      ∀ (level node : Nat), level < 8 → node < 16 → ∀ suffix : List Char,
        parse_secure_path (generate_secure_path level node pref suffix) = (level, node) :=
  fun pref h1 h2 level node hl hn suffix =>
    parse_generate_roundtrip pref h1 h2 level node hl hn suffix

theorem claim_C10_witness :
    parse_secure_path
      (generate_secure_path 2 3 (.ofNat 77) (("ab12cd34" : String).data)) = (2, 3) :=
  claim_C10 (.ofNat 77) (by decide) (by decide) 2 3 (by decide) (by decide) _

theorem claim_C10_counterexample :
    parse_secure_path
      (generate_secure_path 1 2 (.ofNat 78) (("ab12cd34" : String).data)) = (1, 1) ∧
    ((1, 1) : Nat × Nat) ≠ (1, 2) :=
  ⟨by decide, by decide⟩

end CAS
